import Mathlib

/-!
Verification development for the beldex storage-server core.

Byte strings (C++ `std::string` / `std::string_view` holding binary data)
are modelled as `List Nat`; every byte the code produces is `< 256`.

The multi-encoding helpers (`to_hex`, `from_hex`, `is_hex`, `to_base64`,
`from_base64`, `is_base64`, `to_base32z`, `from_base32z`, `is_base32z`)
model the corresponding functions of the bmq encoding library
(`bmq/hex.h`, `bmq/base64.h`, `bmq/base32z.h`) that the repository calls:
lowercase hex output with case-insensitive input, standard base64 with
`=` padding (the decoder skips padding), and z-base-32 with the
alphabet `ybndrfg8ejkmcpqxot1uwisza345h769`, most-significant bit first,
zero-padded final group, with trailing partial bytes dropped on decode.
-/

abbrev Bytes := List Nat

/-- Lowercase hex digit for a value `< 16` (models bmq `to_hex` digits). -/
def hexDigitChar (v : Nat) : Nat :=
  if v < 10 then 48 + v else 87 + v

/-- A hex digit in either case, as accepted by bmq `is_hex`. -/
def isHexDigit (c : Nat) : Bool :=
  (48 ≤ c && c ≤ 57) || (97 ≤ c && c ≤ 102) || (65 ≤ c && c ≤ 70)

/-- Value of a hex digit (either case); garbage input maps to 0. -/
def hexDigitVal (c : Nat) : Nat :=
  if 48 ≤ c && c ≤ 57 then c - 48
  else if 97 ≤ c && c ≤ 102 then c - 87
  else if 65 ≤ c && c ≤ 70 then c - 55
  else 0

/-- bmq `to_hex`: two lowercase hex characters per byte. -/
def to_hex : Bytes → Bytes
  | [] => []
  | b :: bs => hexDigitChar (b / 16) :: hexDigitChar (b % 16) :: to_hex bs

/-- bmq `from_hex`: consumes hex digits in pairs. -/
def from_hex : Bytes → Bytes
  | c1 :: c2 :: cs => (16 * hexDigitVal c1 + hexDigitVal c2) :: from_hex cs
  | _ => []

/-- bmq `is_hex`: even length, all characters hex digits. -/
def is_hex (s : Bytes) : Bool :=
  s.length % 2 == 0 && s.all isHexDigit

/-- Base64 alphabet character for a value `< 64`. -/
def b64Char (v : Nat) : Nat :=
  if v < 26 then 65 + v
  else if v < 52 then 71 + v
  else if v < 62 then v - 4
  else if v = 62 then 43
  else 47

/-- Value of a base64 alphabet character; garbage input maps to 0. -/
def b64Val (c : Nat) : Nat :=
  if 65 ≤ c && c ≤ 90 then c - 65
  else if 97 ≤ c && c ≤ 122 then c - 71
  else if 48 ≤ c && c ≤ 57 then c + 4
  else if c = 43 then 62
  else if c = 47 then 63
  else 0

def isB64Char (c : Nat) : Bool :=
  (65 ≤ c && c ≤ 90) || (97 ≤ c && c ≤ 122) || (48 ≤ c && c ≤ 57) || c == 43 || c == 47

/-- bmq `to_base64` (padded): 3 input bytes become 4 characters; a final
partial group is zero-filled and padded with `=` (character 61). -/
def to_base64 : Bytes → Bytes
  | b0 :: b1 :: b2 :: bs =>
      b64Char (b0 / 4) :: b64Char (b0 % 4 * 16 + b1 / 16) ::
        b64Char (b1 % 16 * 4 + b2 / 64) :: b64Char (b2 % 64) :: to_base64 bs
  | [b0, b1] => [b64Char (b0 / 4), b64Char (b0 % 4 * 16 + b1 / 16), b64Char (b1 % 16 * 4), 61]
  | [b0] => [b64Char (b0 / 4), b64Char (b0 % 4 * 16), 61, 61]
  | [] => []

/-- The unpadded form of `to_base64` (padding characters removed). -/
def to_base64_unpadded (s : Bytes) : Bytes :=
  (to_base64 s).filter (fun c => c != 61)

/-- Base64 decoding of a padding-free character stream, 4 characters to
3 bytes, with trailing groups of 2 or 3 characters yielding 1 or 2 bytes. -/
def b64Chunks : Bytes → Bytes
  | c0 :: c1 :: c2 :: c3 :: cs =>
      (b64Val c0 * 4 + b64Val c1 / 16) :: (b64Val c1 % 16 * 16 + b64Val c2 / 4) ::
        (b64Val c2 % 4 * 64 + b64Val c3) :: b64Chunks cs
  | [c0, c1, c2] => [b64Val c0 * 4 + b64Val c1 / 16, b64Val c1 % 16 * 16 + b64Val c2 / 4]
  | [c0, c1] => [b64Val c0 * 4 + b64Val c1 / 16]
  | [_] => []
  | [] => []

/-- bmq `from_base64`: padding characters are skipped, the rest decoded. -/
def from_base64 (s : Bytes) : Bytes :=
  b64Chunks (s.filter (fun c => c != 61))

/-- bmq `is_base64`: alphabet characters, optionally followed by at most two
`=` pads; a padded string has length divisible by 4, and length `≡ 1 (mod 4)`
is never acceptable. -/
def is_base64 (s : Bytes) : Bool :=
  let body := s.takeWhile (fun c => c != 61)
  let pads := s.drop body.length
  body.all isB64Char && pads.all (fun c => c == 61) && pads.length ≤ 2 &&
    s.length % 4 != 1 && (pads.length == 0 || s.length % 4 == 0)

/-- The z-base-32 alphabet `ybndrfg8ejkmcpqxot1uwisza345h769` as byte values. -/
def zalpha : Bytes :=
  [121, 98, 110, 100, 114, 102, 103, 56, 101, 106, 107, 109, 99, 112, 113, 120,
   111, 116, 49, 117, 119, 105, 115, 122, 97, 51, 52, 53, 104, 55, 54, 57]

def b32Char (v : Nat) : Nat := zalpha.getD v 0

/-- Value of a z-base-32 character (its index in the alphabet; 32 if absent). -/
def b32Val (c : Nat) : Nat := zalpha.indexOf c

def isB32Char (c : Nat) : Bool := zalpha.contains c

def is_base32z (s : Bytes) : Bool := s.all isB32Char

/-- The bits of a byte, most significant first, as 0/1 values. -/
def bytesToBits : Bytes → List Nat
  | [] => []
  | b :: bs =>
      b / 128 % 2 :: b / 64 % 2 :: b / 32 % 2 :: b / 16 % 2 ::
        b / 8 % 2 :: b / 4 % 2 :: b / 2 % 2 :: b % 2 :: bytesToBits bs

/-- Reassemble bytes from a most-significant-first bit stream, dropping an
incomplete trailing group (as the bmq base32z decoder does). -/
def bitsToBytes : List Nat → Bytes
  | b7 :: b6 :: b5 :: b4 :: b3 :: b2 :: b1 :: b0 :: rest =>
      (128 * b7 + 64 * b6 + 32 * b5 + 16 * b4 + 8 * b3 + 4 * b2 + 2 * b1 + b0) ::
        bitsToBytes rest
  | [] => []
  | [_] => []
  | [_, _] => []
  | [_, _, _] => []
  | [_, _, _, _] => []
  | [_, _, _, _, _] => []
  | [_, _, _, _, _, _] => []
  | [_, _, _, _, _, _, _] => []

/-- Encode a bit stream in 5-bit groups, zero-padding the final group. -/
def toBase32zBits : List Nat → Bytes
  | a :: b :: c :: d :: e :: rest =>
      b32Char (16 * a + 8 * b + 4 * c + 2 * d + e) :: toBase32zBits rest
  | [] => []
  | [a] => [b32Char (16 * a)]
  | [a, b] => [b32Char (16 * a + 8 * b)]
  | [a, b, c] => [b32Char (16 * a + 8 * b + 4 * c)]
  | [a, b, c, d] => [b32Char (16 * a + 8 * b + 4 * c + 2 * d)]

/-- The 5 bits of a value `< 32`, most significant first. -/
def bits5 (v : Nat) : List Nat :=
  [v / 16 % 2, v / 8 % 2, v / 4 % 2, v / 2 % 2, v % 2]

/-- bmq `to_base32z`. -/
def to_base32z (s : Bytes) : Bytes := toBase32zBits (bytesToBits s)

/-- bmq `from_base32z`. -/
def from_base32z (s : Bytes) : Bytes :=
  bitsToBytes (s.flatMap (fun c => bits5 (b32Val c)))

/-- Translation of `parse_pubkey<T>` (src/unnamed/part_000, lines 63-81): a
32-byte pubkey parsed from raw bytes, hex, base64 (optionally padded) or
z-base-32, falling back to the zero key (the C++ `T pk{}` initial value) when
no shape matches; it never throws. -/
def parse_pubkey (s : Bytes) : Bytes :=
  if s.length = 32 then s
  else if s.length = 64 ∧ is_hex s then from_hex s
  else if (s.length = 43 ∨ (s.length = 44 ∧ s.getLastD 0 = 61)) ∧ is_base64 s then
    from_base64 s
  else if s.length = 52 ∧ is_base32z s then from_base32z s
  else List.replicate 32 0

/-- The zero value of a 32-byte pubkey type (`T pk{}`). -/
def zero_pubkey : Bytes := List.replicate 32 0

/-- Record of `user_pubkey_t`: one netid byte plus the 32-byte key body.
The size constants and the field types come from the spec (the header
`beldex_common.h` is not part of src/): `USER_PUBKEY_SIZE_HEX = 66`,
`USER_PUBKEY_SIZE_BYTES = 33`, and the netid is a byte, so the C++
assignment `network_ = -1` on invalid input stores `0xFF`. -/
structure user_pubkey_t where
  network_ : Nat
  pubkey_ : Bytes
deriving DecidableEq

def USER_PUBKEY_SIZE_HEX : Nat := 66

def USER_PUBKEY_SIZE_BYTES : Nat := 33

/-- Translation of `user_pubkey_t::load` (src/common/src/beldex_common.cpp,
lines 6-26). `is_mainnet` is the global flag read by the function. -/
def user_pubkey_t.load (is_mainnet : Bool) (pk : Bytes) : user_pubkey_t :=
  if pk.length = USER_PUBKEY_SIZE_HEX ∧ is_hex pk then
    { network_ := 16 * hexDigitVal (pk.getD 0 0) + hexDigitVal (pk.getD 1 0),
      pubkey_ := from_hex (pk.drop 2) }
  else if pk.length = USER_PUBKEY_SIZE_BYTES then
    { network_ := pk.headD 0, pubkey_ := pk.tail }
  else if ¬is_mainnet ∧ pk.length = USER_PUBKEY_SIZE_HEX - 2 ∧ is_hex pk then
    { network_ := 5, pubkey_ := from_hex pk }
  else if ¬is_mainnet ∧ pk.length = USER_PUBKEY_SIZE_BYTES - 1 then
    { network_ := 5, pubkey_ := pk }
  else
    { network_ := 0xFF, pubkey_ := [] }

/-- `user_pubkey_t::type()`: the netid byte. -/
def user_pubkey_t.type (u : user_pubkey_t) : Nat := u.network_

/-- Translation of `user_pubkey_t::prefixed_hex` (src/common/src/beldex_common.cpp,
lines 32-42): empty body yields the empty string; otherwise the netid byte is
hex-encoded first unless `netid == 0 && !is_mainnet`, followed by the hex of
the key body. -/
def user_pubkey_t.prefixed_hex (is_mainnet : Bool) (u : user_pubkey_t) : Bytes :=
  if u.pubkey_ = [] then []
  else (if u.type = 0 ∧ ¬is_mainnet then [] else to_hex [u.type]) ++ to_hex u.pubkey_

/-- Translation of `user_pubkey_t::prefixed_raw` (src/common/src/beldex_common.cpp,
lines 44-52): empty body yields the empty string; otherwise the netid byte
followed by the key body. -/
def user_pubkey_t.prefixed_raw (u : user_pubkey_t) : Bytes :=
  if u.pubkey_ = [] then []
  else u.network_ :: u.pubkey_

/-!
## Rate limiter

Modelled from the spec: the implementation `rate_limiter.{h,cpp}` is not under
src/ (only its unit test, src/unit_test/rate_limiter.cpp, is).  The token
bucket follows spec section 4.4: each bucket stores a fractional token count
and the last-update instant; a query refills `min(BUCKET_SIZE, tokens +
elapsed * TOKEN_RATE)` with saturating (never negative) elapsed time, then
admits (returns `false` = "do not rate limit", matching the C++ boolean) if
at least one token is available, consuming it.  Buckets are created lazily
with a full bucket on first observation.  The client-table behaviour at
capacity is reconstructed from the repository's unit test
("rate limiter - client - max client limit", src/unit_test/rate_limiter.cpp
lines 109-124): when the table is full, buckets that have refilled up to
`BUCKET_SIZE` tokens are purged, and if the table is still full the query is
rejected (the test expects the first query of a fresh identifier at a full
table of busy buckets to be throttled, and to be admitted once the existing
buckets have refilled).  Time is in seconds, as an exact rational.
-/

structure TokenBucket where
  num_tokens : ℚ
  last_time_point : ℚ
deriving DecidableEq

/-- Modelled from the spec: refill step of the token bucket (spec section 4.4,
step 2), saturating for non-monotonic input. -/
def fill_bucket (BUCKET_SIZE TOKEN_RATE : Nat) (b : TokenBucket) (now : ℚ) : TokenBucket :=
  { num_tokens := min (BUCKET_SIZE : ℚ)
      (b.num_tokens + max 0 (now - b.last_time_point) * (TOKEN_RATE : ℚ)),
    last_time_point := now }

/-- Modelled from the spec: steps 2-4 of the token-bucket query; `false` means
the request is admitted. -/
def bucket_query (BUCKET_SIZE TOKEN_RATE : Nat) (b : TokenBucket) (now : ℚ) :
    Bool × TokenBucket :=
  if 1 ≤ (fill_bucket BUCKET_SIZE TOKEN_RATE b now).num_tokens then
    (false, { num_tokens := (fill_bucket BUCKET_SIZE TOKEN_RATE b now).num_tokens - 1,
              last_time_point := now })
  else (true, fill_bucket BUCKET_SIZE TOKEN_RATE b now)

abbrev RLTable (K : Type) := List (K × TokenBucket)

def findBucket {K : Type} [DecidableEq K] : RLTable K → K → Option TokenBucket
  | [], _ => none
  | (k, b) :: rest, key => if k = key then some b else findBucket rest key

def setBucket {K : Type} [DecidableEq K] : RLTable K → K → TokenBucket → RLTable K
  | [], _, _ => []
  | (k, b) :: rest, key, nb =>
      if k = key then (k, nb) :: rest else (k, b) :: setBucket rest key nb

/-- Modelled from the spec: `RateLimiter::should_rate_limit` on the peer
(pubkey-keyed, unbounded) table; returns the verdict and the updated table. -/
def should_rate_limit {K : Type} [DecidableEq K] (BUCKET_SIZE TOKEN_RATE : Nat)
    (tbl : RLTable K) (key : K) (now : ℚ) : Bool × RLTable K :=
  match findBucket tbl key with
  | some b =>
      ((bucket_query BUCKET_SIZE TOKEN_RATE b now).1,
        setBucket tbl key (bucket_query BUCKET_SIZE TOKEN_RATE b now).2)
  | none =>
      ((bucket_query BUCKET_SIZE TOKEN_RATE ⟨(BUCKET_SIZE : ℚ), now⟩ now).1,
        (key, (bucket_query BUCKET_SIZE TOKEN_RATE ⟨(BUCKET_SIZE : ℚ), now⟩ now).2) :: tbl)

/-- Modelled from the spec: purge of client buckets that have refilled to
capacity, run when the client table is full. -/
def clean_buckets {K : Type} (BUCKET_SIZE TOKEN_RATE : Nat) (tbl : RLTable K)
    (now : ℚ) : RLTable K :=
  (tbl.map (fun e => (e.1, fill_bucket BUCKET_SIZE TOKEN_RATE e.2 now))).filter
    (fun e => e.2.num_tokens < (BUCKET_SIZE : ℚ))

/-- Modelled from the spec: `RateLimiter::should_rate_limit_client` on the
IP-keyed table bounded by `MAX_CLIENTS`. -/
def should_rate_limit_client {K : Type} [DecidableEq K]
    (BUCKET_SIZE TOKEN_RATE MAX_CLIENTS : Nat) (tbl : RLTable K) (key : K)
    (now : ℚ) : Bool × RLTable K :=
  match findBucket tbl key with
  | some b =>
      ((bucket_query BUCKET_SIZE TOKEN_RATE b now).1,
        setBucket tbl key (bucket_query BUCKET_SIZE TOKEN_RATE b now).2)
  | none =>
      if MAX_CLIENTS ≤ (if MAX_CLIENTS ≤ tbl.length
          then clean_buckets BUCKET_SIZE TOKEN_RATE tbl now else tbl).length then
        (true, if MAX_CLIENTS ≤ tbl.length
          then clean_buckets BUCKET_SIZE TOKEN_RATE tbl now else tbl)
      else
        ((bucket_query BUCKET_SIZE TOKEN_RATE ⟨(BUCKET_SIZE : ℚ), now⟩ now).1,
          (key, (bucket_query BUCKET_SIZE TOKEN_RATE ⟨(BUCKET_SIZE : ℚ), now⟩ now).2) ::
            (if MAX_CLIENTS ≤ tbl.length
              then clean_buckets BUCKET_SIZE TOKEN_RATE tbl now else tbl))

/-- Run a sequence of admission queries for one identifier, returning the
verdicts and the final table. -/
def runQueries {K : Type} (q : RLTable K → K → ℚ → Bool × RLTable K) :
    RLTable K → K → List ℚ → List Bool × RLTable K
  | tbl, _, [] => ([], tbl)
  | tbl, key, t :: ts =>
      ((q tbl key t).1 :: (runQueries q (q tbl key t).2 key ts).1,
        (runQueries q (q tbl key t).2 key ts).2)

/-!
## Onion request construction (src/contrib/onion-request.cpp)
-/

/-- The three channel ciphersuites. -/
inductive EncryptType
  | aes_cbc
  | aes_gcm
  | xchacha20
deriving DecidableEq

def strBytes (s : String) : Bytes := s.toList.map Char.toNat

/-- `to_string(EncryptType)` of the crypto library (names as used on the wire
and in src/contrib/onion-request.cpp). -/
def to_string : EncryptType → Bytes
  | .aes_cbc => strBytes "aes-cbc"
  | .aes_gcm => strBytes "aes-gcm"
  | .xchacha20 => strBytes "xchacha20"

/-- Translation of `encode_size` (src/contrib/onion-request.cpp, lines 189-198):
the four bytes of the `uint32_t` size, least significant first. -/
def encode_size (s : Nat) : Bytes :=
  [s % 256, s / 2 ^ 8 % 256, s / 2 ^ 16 % 256, s / 2 ^ 24 % 256]

/-- The value of a byte string read as a little-endian integer. -/
def leVal : Bytes → Nat
  | [] => 0
  | b :: bs => b + 256 * leVal bs

/-- One relay of the onion path: its Ed25519 and X25519 public keys. -/
structure Relay where
  ed : Bytes
  x : Bytes
deriving DecidableEq

/-- `nlohmann::json{...}.dump()` of a forward-routing object (keys emitted in
sorted order, no spacing). -/
def routing_dump (dst eph etype : Bytes) : Bytes :=
  strBytes "\x7b\"destination\":\"" ++ dst ++ strBytes "\",\"enc_type\":\"" ++ etype ++
    strBytes "\",\"ephemeral_key\":\"" ++ eph ++ strBytes "\"\x7d"

/-- `nlohmann::json{...}.dump()` of the outermost entry object. -/
def entry_dump (eph etype : Bytes) : Bytes :=
  strBytes "\x7b\"enc_type\":\"" ++ etype ++ strBytes "\",\"ephemeral_key\":\"" ++ eph ++
    strBytes "\"\x7d"

/-- The wrapping loop of `onion_request` (src/contrib/onion-request.cpp,
lines 262-305), walking the reversed relay list.  `E algo plain xkey` stands
for `ChannelEncryption::encrypt` under the layer's fresh ephemeral keypair;
`ephs j` is the public half of the `j`-th ephemeral keypair drawn from
`crypto_box_keypair` (innermost layer first); `et j` is the `j`-th algorithm
selection (`enc_type.value_or(random_etype())`).  The accumulator carries the
current blob and the index of the ephemeral key and algorithm it was
encrypted with; `prev` is the relay the current blob is destined for. -/
def onion_wrap (E : EncryptType → Bytes → Bytes → Bytes) (ephs : Nat → Bytes)
    (et : Nat → EncryptType) :
    Bytes → Nat → Relay → List Relay → Bytes × Nat
  | blob, j, _, [] => (blob, j)
  | blob, j, prev, r :: rest =>
      onion_wrap E ephs et
        (E (et (j + 1)) (encode_size blob.length ++ blob ++
          routing_dump (to_hex prev.ed) (to_hex (ephs j)) (to_string (et j))) r.x)
        (j + 1) r rest

/-- Translation of the construction in `onion_request`
(src/contrib/onion-request.cpp, lines 262-305): innermost encryption of
`size || payload || control` to the last relay, the wrapping loop, and the
final entry layer `size || blob || entry_json`.  `keys` lists the relays in
path order (first hop first), as built in `main`. -/
def onion_request_rev (E : EncryptType → Bytes → Bytes → Bytes) (ephs : Nat → Bytes)
    (et : Nat → EncryptType) (payload control : Bytes) : List Relay → Bytes
  | [] => []
  | last :: up =>
      encode_size (onion_wrap E ephs et
          (E (et 0) (encode_size payload.length ++ payload ++ control) last.x)
          0 last up).1.length ++
        (onion_wrap E ephs et
          (E (et 0) (encode_size payload.length ++ payload ++ control) last.x)
          0 last up).1 ++
        entry_dump
          (to_hex (ephs (onion_wrap E ephs et
            (E (et 0) (encode_size payload.length ++ payload ++ control) last.x)
            0 last up).2))
          (to_string (et (onion_wrap E ephs et
            (E (et 0) (encode_size payload.length ++ payload ++ control) last.x)
            0 last up).2))

def onion_request (E : EncryptType → Bytes → Bytes → Bytes) (ephs : Nat → Bytes)
    (et : Nat → EncryptType) (payload control : Bytes) (keys : List Relay) : Bytes :=
  onion_request_rev E ephs et payload control keys.reverse

/-- The layered-blob shape the spec describes (spec section 4.3.2, steps 1-2),
defined by recursion on the remaining path suffix: for the suffix starting at
relay `R_i`, the blob is encrypted to `R_i` and, unless `R_i` is the last
relay, contains `size || inner_blob || routing`, where the routing object
names the next relay and the ephemeral key and algorithm of the inner layer.
Ephemeral keys and algorithms are numbered from the innermost layer, matching
their generation order in the code. -/
def onionBlobSpec (E : EncryptType → Bytes → Bytes → Bytes) (ephs : Nat → Bytes)
    (et : Nat → EncryptType) (payload control : Bytes) : List Relay → Bytes
  | [] => []
  | [r] => E (et 0) (encode_size payload.length ++ payload ++ control) r.x
  | r :: next :: rest =>
      E (et ((next :: rest).length - 1 + 1))
        (encode_size (onionBlobSpec E ephs et payload control (next :: rest)).length ++
          onionBlobSpec E ephs et payload control (next :: rest) ++
          routing_dump (to_hex next.ed) (to_hex (ephs ((next :: rest).length - 1)))
            (to_string (et ((next :: rest).length - 1)))) r.x

/-- The final wire payload the spec describes (spec section 4.3.2, step 3):
`size(|blob_0|) || blob_0` followed by the entry object naming the outermost
ephemeral key and algorithm. -/
def onionWireSpec (E : EncryptType → Bytes → Bytes → Bytes) (ephs : Nat → Bytes)
    (et : Nat → EncryptType) (payload control : Bytes) (keys : List Relay) : Bytes :=
  encode_size (onionBlobSpec E ephs et payload control keys).length ++
    onionBlobSpec E ephs et payload control keys ++
    entry_dump (to_hex (ephs (keys.length - 1))) (to_string (et (keys.length - 1)))

/-!
## Startup and shutdown sequence (src/unnamed/part_001, `main`)

The control flow of `main` after argument parsing is embedded as a function
from the parsed options and an environment (home directory presence, log
level validity, libsodium initialization, a signal arriving during key
retrieval) to the sequence of observable actions and the process exit code.
`parse_log_level` and `get_mn_privkeys` are collaborators not under src/, so
their outcomes are environment fields.  The success path runs until a
termination signal and then performs the drain sequence written at the end of
`main` (master-node shutdown, HTTPS shutdown, bmq server destruction), after
which `main` falls off the end of its body and returns 0.
-/

inductive MainAction
  | printHelp
  | printVersion
  | initLogging
  | logCriticalLocalhost
  | retrieveKeys
  | generateCerts
  | openHttpsPort
  | startTimers
  | shutdownMasterNode
  | stopHttpsServer
  | stopBmqServer
deriving DecidableEq

structure Options where
  print_help : Bool
  print_version : Bool
  data_dir : String
  testnet : Bool
  log_level : String
  ip : String
deriving DecidableEq

structure MainEnv where
  home_dir_found : Bool
  log_level_valid : Bool
  sodium_ok : Bool
  signalled_during_startup : Bool
deriving DecidableEq

def EXIT_SUCCESS : Nat := 0

def EXIT_FAILURE : Nat := 1

/-- Translation of the body of `main` (src/unnamed/part_001) after
`parser.get_options()`. -/
def main_run (o : Options) (e : MainEnv) : List MainAction × Nat :=
  if o.print_help then ([.printHelp], EXIT_SUCCESS)
  else if o.print_version then ([.printVersion], EXIT_SUCCESS)
  else if o.data_dir = "" ∧ ¬e.home_dir_found then ([], EXIT_FAILURE)
  else if ¬e.log_level_valid then ([], EXIT_FAILURE)
  else if o.ip = "127.0.0.1" then ([.initLogging, .logCriticalLocalhost], EXIT_FAILURE)
  else if ¬e.sodium_ok then ([.initLogging], EXIT_FAILURE)
  else if e.signalled_during_startup then ([.initLogging, .retrieveKeys], EXIT_FAILURE)
  else ([.initLogging, .retrieveKeys, .generateCerts, .openHttpsPort, .startTimers,
         .shutdownMasterNode, .stopHttpsServer, .stopBmqServer], EXIT_SUCCESS)

/-- The drain actions of the shutdown sequence. -/
def isDrainAction (a : MainAction) : Bool :=
  a == .shutdownMasterNode || a == .stopHttpsServer || a == .stopBmqServer

/-!
## Encoding lemmas
-/

theorem hexDigitVal_hexDigitChar : ∀ v < 16, hexDigitVal (hexDigitChar v) = v := by decide

theorem isHexDigit_hexDigitChar : ∀ v < 16, isHexDigit (hexDigitChar v) = true := by decide

theorem to_hex_length (s : Bytes) : (to_hex s).length = 2 * s.length := by
  induction s with
  | nil => rfl
  | cons b bs ih => simp [to_hex, ih]; omega

theorem from_hex_to_hex (s : Bytes) (h : ∀ b ∈ s, b < 256) : from_hex (to_hex s) = s := by
  induction s with
  | nil => rfl
  | cons b bs ih =>
    have hb : b < 256 := h b (by simp)
    simp only [to_hex, from_hex, List.cons.injEq]
    refine ⟨?_, ih fun x hx => h x (by simp [hx])⟩
    rw [hexDigitVal_hexDigitChar _ (by omega), hexDigitVal_hexDigitChar _ (by omega)]
    omega

theorem is_hex_to_hex (s : Bytes) (h : ∀ b ∈ s, b < 256) : is_hex (to_hex s) = true := by
  have hall : (to_hex s).all isHexDigit = true := by
    induction s with
    | nil => rfl
    | cons b bs ih =>
      have hb : b < 256 := h b (by simp)
      simp only [to_hex, List.all_cons, Bool.and_eq_true]
      exact ⟨isHexDigit_hexDigitChar _ (by omega),
        isHexDigit_hexDigitChar _ (by omega), ih fun x hx => h x (by simp [hx])⟩
  simp [is_hex, hall, to_hex_length, Nat.mul_mod_right]

theorem b64Val_b64Char : ∀ v < 64, b64Val (b64Char v) = v := by decide

theorem b64Char_ne_61 (v : Nat) : b64Char v ≠ 61 := by
  unfold b64Char; split_ifs <;> omega

theorem isB64Char_lt : ∀ v < 64, isB64Char (b64Char v) = true := by decide

theorem b64Char_of_ge (v : Nat) (h : 64 ≤ v) : b64Char v = 47 := by
  unfold b64Char; split_ifs <;> omega

theorem isB64Char_b64Char (v : Nat) : isB64Char (b64Char v) = true := by
  by_cases h : v < 64
  · exact isB64Char_lt v h
  · rw [b64Char_of_ge v (by omega)]; rfl

theorem isB64Char_ne_61 (c : Nat) (h : isB64Char c = true) : c ≠ 61 := by
  simp only [isB64Char, Bool.or_eq_true, Bool.and_eq_true, decide_eq_true_eq, beq_iff_eq] at h
  omega

theorem filter61_cons {c : Nat} (hc : c ≠ 61) (l : Bytes) :
    (c :: l).filter (fun x => x != 61) = c :: l.filter (fun x => x != 61) := by
  simp [List.filter_cons, hc]

theorem b64Chunks_filter_to_base64 (s : Bytes) (h : ∀ b ∈ s, b < 256) :
    b64Chunks ((to_base64 s).filter (fun c => c != 61)) = s := by
  induction s using to_base64.induct with
  | case1 b0 b1 b2 bs ih =>
    have h0 : b0 < 256 := h b0 (by simp)
    have h1 : b1 < 256 := h b1 (by simp)
    have h2 : b2 < 256 := h b2 (by simp)
    rw [to_base64, filter61_cons (b64Char_ne_61 _), filter61_cons (b64Char_ne_61 _),
      filter61_cons (b64Char_ne_61 _), filter61_cons (b64Char_ne_61 _), b64Chunks]
    rw [ih fun x hx => h x (by simp [hx])]
    rw [b64Val_b64Char _ (by omega), b64Val_b64Char _ (by omega),
      b64Val_b64Char _ (by omega), b64Val_b64Char _ (by omega)]
    simp only [List.cons.injEq, and_true]
    omega
  | case2 b0 b1 =>
    have h0 : b0 < 256 := h b0 (by simp)
    have h1 : b1 < 256 := h b1 (by simp)
    rw [to_base64, filter61_cons (b64Char_ne_61 _), filter61_cons (b64Char_ne_61 _),
      filter61_cons (b64Char_ne_61 _)]
    rw [show List.filter (fun x : Nat => x != 61) [61] = [] from rfl, b64Chunks]
    rw [b64Val_b64Char _ (by omega), b64Val_b64Char _ (by omega), b64Val_b64Char _ (by omega)]
    simp only [List.cons.injEq, and_true]
    omega
  | case3 b0 =>
    have h0 : b0 < 256 := h b0 (by simp)
    rw [to_base64, filter61_cons (b64Char_ne_61 _), filter61_cons (b64Char_ne_61 _)]
    rw [show List.filter (fun x : Nat => x != 61) [61, 61] = [] from rfl, b64Chunks]
    rw [b64Val_b64Char _ (by omega), b64Val_b64Char _ (by omega)]
    simp only [List.cons.injEq, and_true]
    omega
  | case4 => rfl

theorem from_base64_to_base64 (s : Bytes) (h : ∀ b ∈ s, b < 256) :
    from_base64 (to_base64 s) = s := by
  rw [from_base64, b64Chunks_filter_to_base64 s h]

theorem from_base64_to_base64_unpadded (s : Bytes) (h : ∀ b ∈ s, b < 256) :
    from_base64 (to_base64_unpadded s) = s := by
  rw [from_base64, to_base64_unpadded, List.filter_filter]
  simpa [Bool.and_self] using b64Chunks_filter_to_base64 s h

theorem to_base64_length (s : Bytes) : (to_base64 s).length = 4 * ((s.length + 2) / 3) := by
  induction s using to_base64.induct with
  | case1 b0 b1 b2 bs ih => rw [to_base64]; simp only [List.length_cons, ih]; omega
  | case2 b0 b1 => rw [to_base64]; simp
  | case3 b0 => rw [to_base64]; simp
  | case4 => rfl

theorem to_base64_unpadded_length (s : Bytes) :
    (to_base64_unpadded s).length = (s.length * 4 + 2) / 3 := by
  rw [to_base64_unpadded]
  induction s using to_base64.induct with
  | case1 b0 b1 b2 bs ih =>
    rw [to_base64, filter61_cons (b64Char_ne_61 _), filter61_cons (b64Char_ne_61 _),
      filter61_cons (b64Char_ne_61 _), filter61_cons (b64Char_ne_61 _)]
    simp only [List.length_cons, ih]
    omega
  | case2 b0 b1 =>
    rw [to_base64, filter61_cons (b64Char_ne_61 _), filter61_cons (b64Char_ne_61 _),
      filter61_cons (b64Char_ne_61 _)]
    simp
  | case3 b0 =>
    rw [to_base64, filter61_cons (b64Char_ne_61 _), filter61_cons (b64Char_ne_61 _)]
    simp
  | case4 => rfl

theorem to_base64_split (s : Bytes) :
    to_base64 s = to_base64_unpadded s ++ List.replicate ((3 - s.length % 3) % 3) 61 := by
  rw [to_base64_unpadded]
  induction s using to_base64.induct with
  | case1 b0 b1 b2 bs ih =>
    rw [to_base64, filter61_cons (b64Char_ne_61 _), filter61_cons (b64Char_ne_61 _),
      filter61_cons (b64Char_ne_61 _), filter61_cons (b64Char_ne_61 _)]
    have hm : (b0 :: b1 :: b2 :: bs).length % 3 = bs.length % 3 := by
      simp only [List.length_cons]; omega
    rw [hm]
    simp only [List.cons_append, List.cons.injEq, true_and]
    exact ih
  | case2 b0 b1 =>
    rw [to_base64, filter61_cons (b64Char_ne_61 _), filter61_cons (b64Char_ne_61 _),
      filter61_cons (b64Char_ne_61 _)]
    rw [show List.filter (fun x : Nat => x != 61) [61] = [] from rfl]
    rfl
  | case3 b0 =>
    rw [to_base64, filter61_cons (b64Char_ne_61 _), filter61_cons (b64Char_ne_61 _)]
    rw [show List.filter (fun x : Nat => x != 61) [61, 61] = [] from rfl]
    rfl
  | case4 => rfl

theorem to_base64_unpadded_all (s : Bytes) :
    (to_base64_unpadded s).all isB64Char = true := by
  rw [to_base64_unpadded]
  induction s using to_base64.induct with
  | case1 b0 b1 b2 bs ih =>
    rw [to_base64, filter61_cons (b64Char_ne_61 _), filter61_cons (b64Char_ne_61 _),
      filter61_cons (b64Char_ne_61 _), filter61_cons (b64Char_ne_61 _)]
    simp [isB64Char_b64Char, ih]
  | case2 b0 b1 =>
    rw [to_base64, filter61_cons (b64Char_ne_61 _), filter61_cons (b64Char_ne_61 _),
      filter61_cons (b64Char_ne_61 _)]
    simp [isB64Char_b64Char]
  | case3 b0 =>
    rw [to_base64, filter61_cons (b64Char_ne_61 _), filter61_cons (b64Char_ne_61 _)]
    simp [isB64Char_b64Char]
  | case4 => rfl

theorem takeWhile61_of_all (body : Bytes) (h : body.all isB64Char = true) (t : Bytes) :
    (body ++ t).takeWhile (fun c => c != 61) = body ++ t.takeWhile (fun c => c != 61) := by
  induction body with
  | nil => rfl
  | cons c cs ih =>
    simp only [List.all_cons, Bool.and_eq_true] at h
    have hc : (c != 61) = true := by simp [isB64Char_ne_61 c h.1]
    simp only [List.cons_append, List.takeWhile_cons, hc, if_true]
    rw [ih h.2]

theorem is_base64_no_pad (s : Bytes) (h : s.all isB64Char = true)
    (hlen : s.length % 4 ≠ 1) : is_base64 s = true := by
  have ht : s.takeWhile (fun c => c != 61) = s := by
    have := takeWhile61_of_all s h []
    simpa using this
  simp [is_base64, ht, h, hlen]

theorem is_base64_one_pad (s : Bytes) (h : s.all isB64Char = true)
    (hlen : (s.length + 1) % 4 = 0) : is_base64 (s ++ [61]) = true := by
  have ht : (s ++ [61]).takeWhile (fun c => c != 61) = s := by
    have := takeWhile61_of_all s h [61]
    simpa using this
  have htl : ((s ++ [61]).takeWhile (fun c => c != 61)).length = s.length := by rw [ht]
  have hd : (s ++ [61]).drop s.length = [61] := List.drop_left s [61]
  simp only [is_base64, ht, htl, hd]
  simp [h]
  omega

theorem b32Val_b32Char : ∀ v < 32, b32Val (b32Char v) = v := by decide

theorem isB32Char_b32Char : ∀ v < 32, isB32Char (b32Char v) = true := by decide

theorem bits5_lt (v : Nat) : ∀ x ∈ bits5 v, x < 2 := by
  simp only [bits5, List.mem_cons, List.not_mem_nil, or_false]
  rintro x (rfl | rfl | rfl | rfl | rfl) <;> omega

theorem bits5_comp (a b c d e : Nat) (ha : a < 2) (hb : b < 2) (hc : c < 2) (hd : d < 2)
    (he : e < 2) : bits5 (16 * a + 8 * b + 4 * c + 2 * d + e) = [a, b, c, d, e] := by
  simp only [bits5, List.cons.injEq, and_true]
  omega

theorem bytesToBits_lt (s : Bytes) : ∀ x ∈ bytesToBits s, x < 2 := by
  induction s with
  | nil => simp [bytesToBits]
  | cons b bs ih =>
    simp only [bytesToBits, List.mem_cons]
    rintro x (rfl | rfl | rfl | rfl | rfl | rfl | rfl | rfl | hx)
    any_goals omega
    exact ih x hx

theorem bytesToBits_length (s : Bytes) : (bytesToBits s).length = 8 * s.length := by
  induction s with
  | nil => rfl
  | cons b bs ih => simp [bytesToBits, ih]; omega

theorem toBase32zBits_length (l : List Nat) :
    (toBase32zBits l).length = (l.length + 4) / 5 := by
  induction l using toBase32zBits.induct <;> simp [toBase32zBits, *] <;> omega

theorem toBase32zBits_all (l : List Nat) (h : ∀ x ∈ l, x < 2) :
    (toBase32zBits l).all isB32Char = true := by
  induction l using toBase32zBits.induct with
  | case1 a b c d e rest ih =>
    have ha : a < 2 := h a (by simp)
    have hb : b < 2 := h b (by simp)
    have hc : c < 2 := h c (by simp)
    have hd : d < 2 := h d (by simp)
    have he : e < 2 := h e (by simp)
    simp only [toBase32zBits, List.all_cons, Bool.and_eq_true]
    exact ⟨isB32Char_b32Char _ (by omega), ih fun x hx => h x (by simp [hx])⟩
  | case2 => rfl
  | case3 a =>
    have ha : a < 2 := h a (by simp)
    simp only [toBase32zBits, List.all_cons, Bool.and_eq_true, List.all_nil]
    exact ⟨isB32Char_b32Char _ (by omega), trivial⟩
  | case4 a b =>
    have ha : a < 2 := h a (by simp)
    have hb : b < 2 := h b (by simp)
    simp only [toBase32zBits, List.all_cons, Bool.and_eq_true, List.all_nil]
    exact ⟨isB32Char_b32Char _ (by omega), trivial⟩
  | case5 a b c =>
    have ha : a < 2 := h a (by simp)
    have hb : b < 2 := h b (by simp)
    have hc : c < 2 := h c (by simp)
    simp only [toBase32zBits, List.all_cons, Bool.and_eq_true, List.all_nil]
    exact ⟨isB32Char_b32Char _ (by omega), trivial⟩
  | case6 a b c d =>
    have ha : a < 2 := h a (by simp)
    have hb : b < 2 := h b (by simp)
    have hc : c < 2 := h c (by simp)
    have hd : d < 2 := h d (by simp)
    simp only [toBase32zBits, List.all_cons, Bool.and_eq_true, List.all_nil]
    exact ⟨isB32Char_b32Char _ (by omega), trivial⟩

theorem toBase32zBits_decode (l : List Nat) (h : ∀ x ∈ l, x < 2) :
    (toBase32zBits l).flatMap (fun c => bits5 (b32Val c)) =
      l ++ List.replicate ((5 - l.length % 5) % 5) 0 := by
  induction l using toBase32zBits.induct with
  | case1 a b c d e rest ih =>
    have ha : a < 2 := h a (by simp)
    have hb : b < 2 := h b (by simp)
    have hc : c < 2 := h c (by simp)
    have hd : d < 2 := h d (by simp)
    have he : e < 2 := h e (by simp)
    simp only [toBase32zBits, List.flatMap_cons]
    rw [b32Val_b32Char _ (by omega), bits5_comp a b c d e ha hb hc hd he,
      ih fun x hx => h x (by simp [hx])]
    have hm : (a :: b :: c :: d :: e :: rest).length % 5 = rest.length % 5 := by
      simp only [List.length_cons]; omega
    rw [hm]
    rfl
  | case2 => rfl
  | case3 a =>
    have ha : a < 2 := h a (by simp)
    simp only [toBase32zBits, List.flatMap_cons, List.flatMap_nil]
    rw [b32Val_b32Char _ (by omega),
      show (16 * a : Nat) = 16 * a + 8 * 0 + 4 * 0 + 2 * 0 + 0 by ring,
      bits5_comp a 0 0 0 0 ha (by omega) (by omega) (by omega) (by omega)]
    rfl
  | case4 a b =>
    have ha : a < 2 := h a (by simp)
    have hb : b < 2 := h b (by simp)
    simp only [toBase32zBits, List.flatMap_cons, List.flatMap_nil]
    rw [b32Val_b32Char _ (by omega),
      show (16 * a + 8 * b : Nat) = 16 * a + 8 * b + 4 * 0 + 2 * 0 + 0 by ring,
      bits5_comp a b 0 0 0 ha hb (by omega) (by omega) (by omega)]
    rfl
  | case5 a b c =>
    have ha : a < 2 := h a (by simp)
    have hb : b < 2 := h b (by simp)
    have hc : c < 2 := h c (by simp)
    simp only [toBase32zBits, List.flatMap_cons, List.flatMap_nil]
    rw [b32Val_b32Char _ (by omega),
      show (16 * a + 8 * b + 4 * c : Nat) = 16 * a + 8 * b + 4 * c + 2 * 0 + 0 by ring,
      bits5_comp a b c 0 0 ha hb hc (by omega) (by omega)]
    rfl
  | case6 a b c d =>
    have ha : a < 2 := h a (by simp)
    have hb : b < 2 := h b (by simp)
    have hc : c < 2 := h c (by simp)
    have hd : d < 2 := h d (by simp)
    simp only [toBase32zBits, List.flatMap_cons, List.flatMap_nil]
    rw [b32Val_b32Char _ (by omega),
      show (16 * a + 8 * b + 4 * c + 2 * d : Nat) = 16 * a + 8 * b + 4 * c + 2 * d + 0 by ring,
      bits5_comp a b c d 0 ha hb hc hd (by omega)]
    rfl

theorem bitsToBytes_bytesToBits (s : Bytes) (h : ∀ b ∈ s, b < 256) (e : List Nat) :
    bitsToBytes (bytesToBits s ++ e) = s ++ bitsToBytes e := by
  induction s with
  | nil => rfl
  | cons b bs ih =>
    have hb : b < 256 := h b (by simp)
    rw [bytesToBits]
    simp only [List.cons_append]
    rw [bitsToBytes, ih fun x hx => h x (by simp [hx])]
    simp only [List.cons.injEq, and_true]
    omega

theorem bitsToBytes_small : ∀ p ≤ 4, bitsToBytes (List.replicate p 0) = [] := by decide

theorem from_base32z_to_base32z (s : Bytes) (h : ∀ b ∈ s, b < 256) :
    from_base32z (to_base32z s) = s := by
  rw [from_base32z, to_base32z, toBase32zBits_decode _ (bytesToBits_lt s),
    bitsToBytes_bytesToBits s h, bitsToBytes_small _ (by omega), List.append_nil]

theorem to_base32z_length (s : Bytes) : (to_base32z s).length = (8 * s.length + 4) / 5 := by
  rw [to_base32z, toBase32zBits_length, bytesToBits_length]

theorem is_base32z_to_base32z (s : Bytes) : is_base32z (to_base32z s) = true := by
  rw [is_base32z, to_base32z]
  exact toBase32zBits_all _ (bytesToBits_lt s)

/-!
## Claims about the key codec
-/

/-- Claim C2: the permissive public-key parser accepts exactly the five shapes
32 raw bytes, 64 hex characters, 43 unpadded base64 characters, 44 base64
characters ending in the padding character, or 52 z-base-32 characters, tried
in that order, and returns the all-zero key on any other input (it is total,
hence never throws). -/
theorem parse_pubkey_shapes (s : Bytes) :
    (s.length = 32 ∧ parse_pubkey s = s) ∨
    (s.length = 64 ∧ is_hex s = true ∧ parse_pubkey s = from_hex s) ∨
    ((s.length = 43 ∨ (s.length = 44 ∧ s.getLastD 0 = 61)) ∧ is_base64 s = true ∧
      parse_pubkey s = from_base64 s) ∨
    (s.length = 52 ∧ is_base32z s = true ∧ parse_pubkey s = from_base32z s) ∨
    (¬s.length = 32 ∧ ¬(s.length = 64 ∧ is_hex s = true) ∧
      ¬((s.length = 43 ∨ (s.length = 44 ∧ s.getLastD 0 = 61)) ∧ is_base64 s = true) ∧
      ¬(s.length = 52 ∧ is_base32z s = true) ∧ parse_pubkey s = zero_pubkey) := by
  by_cases h1 : s.length = 32
  · exact Or.inl ⟨h1, by rw [parse_pubkey, if_pos h1]⟩
  by_cases h2 : s.length = 64 ∧ is_hex s = true
  · exact Or.inr (Or.inl ⟨h2.1, h2.2, by rw [parse_pubkey, if_neg h1, if_pos h2]⟩)
  by_cases h3 : (s.length = 43 ∨ (s.length = 44 ∧ s.getLastD 0 = 61)) ∧ is_base64 s = true
  · exact Or.inr (Or.inr (Or.inl ⟨h3.1, h3.2,
      by rw [parse_pubkey, if_neg h1, if_neg h2, if_pos h3]⟩))
  by_cases h4 : s.length = 52 ∧ is_base32z s = true
  · exact Or.inr (Or.inr (Or.inr (Or.inl ⟨h4.1, h4.2,
      by rw [parse_pubkey, if_neg h1, if_neg h2, if_neg h3, if_pos h4]⟩)))
  · exact Or.inr (Or.inr (Or.inr (Or.inr ⟨h1, h2, h3, h4,
      by rw [parse_pubkey, if_neg h1, if_neg h2, if_neg h3, if_neg h4]; rfl⟩)))

/-- Claim C3: for every 32-byte public key, parsing the formatted emission
yields the key back, for each of raw bytes, lowercase hex, padded base64,
unpadded base64 and z-base-32. -/
theorem parse_pubkey_roundtrip (k : Bytes) (hlen : k.length = 32)
    (hb : ∀ b ∈ k, b < 256) :
    parse_pubkey k = k ∧
    parse_pubkey (to_hex k) = k ∧
    parse_pubkey (to_base64 k) = k ∧
    parse_pubkey (to_base64_unpadded k) = k ∧
    parse_pubkey (to_base32z k) = k := by
  have hu_len : (to_base64_unpadded k).length = 43 := by
    rw [to_base64_unpadded_length, hlen]
  have hall := to_base64_unpadded_all k
  refine ⟨?_, ?_, ?_, ?_, ?_⟩
  · rw [parse_pubkey, if_pos hlen]
  · have h64 : (to_hex k).length = 64 := by rw [to_hex_length, hlen]
    rw [parse_pubkey, if_neg (by simp [h64]), if_pos ⟨h64, is_hex_to_hex k hb⟩]
    exact from_hex_to_hex k hb
  · have hs : to_base64 k = to_base64_unpadded k ++ [61] := by
      rw [to_base64_split, hlen]
      rfl
    have hlen44 : (to_base64 k).length = 44 := by
      rw [hs, List.length_append, hu_len]
      rfl
    have hlast : (to_base64 k).getLastD 0 = 61 := by rw [hs]; simp
    have hb64 : is_base64 (to_base64 k) = true := by
      rw [hs]
      exact is_base64_one_pad _ hall (by rw [hu_len])
    rw [parse_pubkey, if_neg (by simp [hlen44]), if_neg (by simp [hlen44]),
      if_pos ⟨Or.inr ⟨hlen44, hlast⟩, hb64⟩]
    exact from_base64_to_base64 k hb
  · have hb64 : is_base64 (to_base64_unpadded k) = true :=
      is_base64_no_pad _ hall (by rw [hu_len]; omega)
    rw [parse_pubkey, if_neg (by simp [hu_len]), if_neg (by simp [hu_len]),
      if_pos ⟨Or.inl hu_len, hb64⟩]
    exact from_base64_to_base64_unpadded k hb
  · have h52 : (to_base32z k).length = 52 := by rw [to_base32z_length, hlen]
    rw [parse_pubkey, if_neg (by simp [h52]), if_neg (by simp [h52]),
      if_neg (by simp [h52]), if_pos ⟨h52, is_base32z_to_base32z k⟩]
    exact from_base32z_to_base32z k hb

/-- Witness for C3 at a concrete 32-byte key. -/
theorem parse_pubkey_roundtrip_witness :
    (List.range 32).length = 32 ∧ (∀ b ∈ List.range 32, b < 256) ∧
      parse_pubkey (to_hex (List.range 32)) = List.range 32 :=
  ⟨by decide, by decide,
    (parse_pubkey_roundtrip (List.range 32) (by decide) (by decide)).2.1⟩

/-- Claim C4: `user_pubkey_t::load` accepts exactly 66 hex characters (netid
from the first hex byte), 33 raw bytes (netid from the first byte), and, off
mainnet only, 64 hex characters or 32 raw bytes with implied netid 5; on any
other input it stores netid `0xFF` and an empty body. -/
theorem user_pubkey_load_shapes (m : Bool) (pk : Bytes) :
    (pk.length = 66 ∧ is_hex pk = true ∧
      user_pubkey_t.load m pk =
        ⟨16 * hexDigitVal (pk.getD 0 0) + hexDigitVal (pk.getD 1 0), from_hex (pk.drop 2)⟩) ∨
    (pk.length = 33 ∧ user_pubkey_t.load m pk = ⟨pk.headD 0, pk.tail⟩) ∨
    (m = false ∧ pk.length = 64 ∧ is_hex pk = true ∧
      user_pubkey_t.load m pk = ⟨5, from_hex pk⟩) ∨
    (m = false ∧ pk.length = 32 ∧ user_pubkey_t.load m pk = ⟨5, pk⟩) ∨
    (¬(pk.length = 66 ∧ is_hex pk = true) ∧ ¬pk.length = 33 ∧
      ¬(m = false ∧ pk.length = 64 ∧ is_hex pk = true) ∧
      ¬(m = false ∧ pk.length = 32) ∧
      user_pubkey_t.load m pk = ⟨0xFF, []⟩) := by
  by_cases h1 : pk.length = USER_PUBKEY_SIZE_HEX ∧ is_hex pk = true
  · exact Or.inl ⟨h1.1, h1.2, by rw [user_pubkey_t.load, if_pos h1]⟩
  by_cases h2 : pk.length = USER_PUBKEY_SIZE_BYTES
  · exact Or.inr (Or.inl ⟨h2, by rw [user_pubkey_t.load, if_neg h1, if_pos h2]⟩)
  by_cases h3 : ¬m = true ∧ pk.length = USER_PUBKEY_SIZE_HEX - 2 ∧ is_hex pk = true
  · refine Or.inr (Or.inr (Or.inl ⟨by simpa using h3.1, h3.2.1, h3.2.2, ?_⟩))
    rw [user_pubkey_t.load, if_neg h1, if_neg h2, if_pos h3]
  by_cases h4 : ¬m = true ∧ pk.length = USER_PUBKEY_SIZE_BYTES - 1
  · refine Or.inr (Or.inr (Or.inr (Or.inl ⟨by simpa using h4.1, h4.2, ?_⟩)))
    rw [user_pubkey_t.load, if_neg h1, if_neg h2, if_neg h3, if_pos h4]
  · refine Or.inr (Or.inr (Or.inr (Or.inr ⟨h1, h2, ?_, ?_,
      by rw [user_pubkey_t.load, if_neg h1, if_neg h2, if_neg h3, if_neg h4]⟩)))
    · intro hc
      exact h3 ⟨by simp [hc.1], hc.2.1, hc.2.2⟩
    · intro hc
      exact h4 ⟨by simp [hc.1], hc.2⟩

/-- Claim C5: a valid record's canonical hex form carries the netid prefix
byte, except when `netid = 0` off mainnet, where it is the bare 64-character
hex of the key body. -/
theorem prefixed_hex_netid (m : Bool) (u : user_pubkey_t)
    (hlen : u.pubkey_.length = 32) :
    (¬(u.network_ = 0 ∧ m = false) →
      u.prefixed_hex m = to_hex [u.network_] ++ to_hex u.pubkey_ ∧
        (u.prefixed_hex m).length = 66) ∧
    (u.network_ = 0 ∧ m = false →
      u.prefixed_hex m = to_hex u.pubkey_ ∧ (u.prefixed_hex m).length = 64) := by
  have hne : ¬u.pubkey_ = [] := by
    intro hc
    rw [hc] at hlen
    simp at hlen
  constructor
  · intro h
    have hcond : ¬(u.type = 0 ∧ ¬m = true) := by
      simpa [user_pubkey_t.type, Bool.not_eq_true] using h
    rw [user_pubkey_t.prefixed_hex, if_neg hne, if_neg hcond]
    refine ⟨rfl, ?_⟩
    simp [to_hex_length, to_hex, hlen]
  · intro h
    have hcond : u.type = 0 ∧ ¬m = true := by
      simpa [user_pubkey_t.type, Bool.not_eq_true] using h
    rw [user_pubkey_t.prefixed_hex, if_neg hne, if_pos hcond]
    refine ⟨rfl, ?_⟩
    simp [to_hex_length, hlen]

/-- Witness for C5 at a concrete record. -/
theorem prefixed_hex_netid_witness :
    (user_pubkey_t.mk 5 (List.range 32)).pubkey_.length = 32 ∧
      ((user_pubkey_t.mk 5 (List.range 32)).prefixed_hex false =
          to_hex [5] ++ to_hex (List.range 32) ∧
        ((user_pubkey_t.mk 5 (List.range 32)).prefixed_hex false).length = 66) :=
  ⟨by decide,
    (prefixed_hex_netid false (user_pubkey_t.mk 5 (List.range 32)) (by decide)).1
      (by decide)⟩

/-- Claim C10: a record with an empty key body (in particular one left invalid
by `load`) emits the empty string from both `prefixed_hex` and
`prefixed_raw`. -/
theorem empty_body_empty_emission (u : user_pubkey_t) (m : Bool)
    (h : u.pubkey_ = []) :
    u.prefixed_hex m = [] ∧ u.prefixed_raw = [] := by
  rw [user_pubkey_t.prefixed_hex, if_pos h, user_pubkey_t.prefixed_raw, if_pos h]
  exact ⟨rfl, rfl⟩

/-- Witness for C10 on the record produced by a failed `load`. -/
theorem empty_body_empty_emission_witness :
    (user_pubkey_t.load true [1, 2]).pubkey_ = [] ∧
      ((user_pubkey_t.load true [1, 2]).prefixed_hex true = [] ∧
        (user_pubkey_t.load true [1, 2]).prefixed_raw = []) :=
  ⟨by decide, empty_body_empty_emission (user_pubkey_t.load true [1, 2]) true (by decide)⟩

/-!
## Rate limiter lemmas
-/

theorem fill_bucket_same_time (BS TR : Nat) (c t : ℚ) (hcBS : c ≤ (BS : ℚ)) :
    fill_bucket BS TR ⟨c, t⟩ t = ⟨c, t⟩ := by
  unfold fill_bucket
  simp [min_eq_right hcBS]

theorem bucket_query_same_time (BS TR : Nat) (c t : ℚ) (hc1 : 1 ≤ c)
    (hcBS : c ≤ (BS : ℚ)) :
    bucket_query BS TR ⟨c, t⟩ t = (false, ⟨c - 1, t⟩) := by
  unfold bucket_query
  rw [fill_bucket_same_time BS TR c t hcBS]
  simp [hc1]

theorem bucket_query_empty_same_time (BS TR : Nat) (t : ℚ) :
    bucket_query BS TR ⟨0, t⟩ t = (true, ⟨0, t⟩) := by
  unfold bucket_query
  rw [fill_bucket_same_time BS TR 0 t (by positivity)]
  norm_num

theorem bucket_query_refill_one (BS TR : Nat) (t : ℚ) (hBS : 1 ≤ BS) (hTR : 0 < TR) :
    bucket_query BS TR ⟨0, t⟩ (t + 1 / (TR : ℚ)) = (false, ⟨0, t + 1 / (TR : ℚ)⟩) := by
  have hTRQ : (0 : ℚ) < (TR : ℚ) := by exact_mod_cast hTR
  have hfill : fill_bucket BS TR ⟨0, t⟩ (t + 1 / (TR : ℚ)) = ⟨1, t + 1 / (TR : ℚ)⟩ := by
    unfold fill_bucket
    have h1 : t + 1 / (TR : ℚ) - t = 1 / (TR : ℚ) := by ring
    have h2 : max 0 (1 / (TR : ℚ)) = 1 / (TR : ℚ) := max_eq_right (by positivity)
    have h3 : 1 / (TR : ℚ) * (TR : ℚ) = 1 := by
      field_simp
    have h4 : min ((BS : ℚ)) ((0 : ℚ) + 1) = 1 := by
      rw [zero_add]
      exact min_eq_right (by exact_mod_cast hBS)
    simp only [h1, h2, h3]
    rw [zero_add] at h4 ⊢
    simp [h4]
  unfold bucket_query
  rw [hfill]
  norm_num

theorem findBucket_single {K : Type} [DecidableEq K] (k : K) (b : TokenBucket) :
    findBucket [(k, b)] k = some b := by
  unfold findBucket
  simp

theorem setBucket_single {K : Type} [DecidableEq K] (k : K) (b nb : TokenBucket) :
    setBucket [(k, b)] k nb = [(k, nb)] := by
  unfold setBucket
  simp

theorem should_rate_limit_one (BS TR : Nat) {K : Type} [DecidableEq K] (k : K) (c t : ℚ)
    (hc1 : 1 ≤ c) (hcBS : c ≤ (BS : ℚ)) :
    should_rate_limit BS TR [(k, ⟨c, t⟩)] k t = (false, [(k, ⟨c - 1, t⟩)]) := by
  simp only [should_rate_limit, findBucket_single,
    bucket_query_same_time BS TR c t hc1 hcBS, setBucket_single]

theorem should_rate_limit_client_one (BS TR MC : Nat) {K : Type} [DecidableEq K] (k : K)
    (c t : ℚ) (hc1 : 1 ≤ c) (hcBS : c ≤ (BS : ℚ)) :
    should_rate_limit_client BS TR MC [(k, ⟨c, t⟩)] k t = (false, [(k, ⟨c - 1, t⟩)]) := by
  simp only [should_rate_limit_client, findBucket_single,
    bucket_query_same_time BS TR c t hc1 hcBS, setBucket_single]

theorem should_rate_limit_fresh (BS TR : Nat) {K : Type} [DecidableEq K] (k : K) (t : ℚ)
    (hBS : 1 ≤ BS) :
    should_rate_limit BS TR ([] : RLTable K) k t =
      (false, [(k, ⟨(BS : ℚ) - 1, t⟩)]) := by
  have h1 : (1 : ℚ) ≤ (BS : ℚ) := by exact_mod_cast hBS
  simp only [should_rate_limit, findBucket,
    bucket_query_same_time BS TR (BS : ℚ) t h1 le_rfl]

theorem should_rate_limit_client_fresh (BS TR MC : Nat) {K : Type} [DecidableEq K] (k : K)
    (t : ℚ) (hBS : 1 ≤ BS) (hMC : 1 ≤ MC) :
    should_rate_limit_client BS TR MC ([] : RLTable K) k t =
      (false, [(k, ⟨(BS : ℚ) - 1, t⟩)]) := by
  have h1 : (1 : ℚ) ≤ (BS : ℚ) := by exact_mod_cast hBS
  have hnot : ¬MC ≤ ([] : RLTable K).length := by simp; omega
  simp only [should_rate_limit_client, findBucket, if_neg hnot,
    bucket_query_same_time BS TR (BS : ℚ) t h1 le_rfl]

theorem runQueries_drain {K : Type} [DecidableEq K] (BS : Nat)
    (q : RLTable K → K → ℚ → Bool × RLTable K) (k : K) (t : ℚ)
    (hq : ∀ c : ℚ, 1 ≤ c → c ≤ (BS : ℚ) → q [(k, ⟨c, t⟩)] k t = (false, [(k, ⟨c - 1, t⟩)])) :
    ∀ (j : Nat) (c : ℚ), (j : ℚ) ≤ c → c ≤ (BS : ℚ) →
      runQueries q [(k, ⟨c, t⟩)] k (List.replicate j t) =
        (List.replicate j false, [(k, ⟨c - j, t⟩)]) := by
  intro j
  induction j with
  | zero =>
    intro c _ _
    simp [runQueries]
  | succ n ih =>
    intro c h1 h2
    have hn : (0 : ℚ) ≤ (n : ℚ) := by positivity
    have hc1 : 1 ≤ c := by
      have : ((n + 1 : Nat) : ℚ) = (n : ℚ) + 1 := by push_cast; ring
      rw [this] at h1
      linarith
    rw [List.replicate_succ, runQueries, hq c hc1 h2]
    have hrec := ih (c - 1) (by push_cast at h1 ⊢; linarith) (by linarith)
    have hc : c - 1 - (n : ℚ) = c - ((n + 1 : Nat) : ℚ) := by push_cast; ring
    rw [hc] at hrec
    rw [hrec, List.replicate_succ]

theorem runQueries_append {K : Type} (q : RLTable K → K → ℚ → Bool × RLTable K) (k : K) :
    ∀ (ts1 ts2 : List ℚ) (tbl : RLTable K),
      runQueries q tbl k (ts1 ++ ts2) =
        ((runQueries q tbl k ts1).1 ++
            (runQueries q (runQueries q tbl k ts1).2 k ts2).1,
          (runQueries q (runQueries q tbl k ts1).2 k ts2).2) := by
  intro ts1
  induction ts1 with
  | nil => intro ts2 tbl; simp [runQueries]
  | cons t ts ih =>
    intro ts2 tbl
    rw [List.cons_append, runQueries, runQueries, ih]
    rfl

theorem should_rate_limit_zero (BS TR : Nat) {K : Type} [DecidableEq K] (k : K) (t : ℚ) :
    should_rate_limit BS TR [(k, ⟨0, t⟩)] k t = (true, [(k, ⟨0, t⟩)]) := by
  simp only [should_rate_limit, findBucket_single, bucket_query_empty_same_time,
    setBucket_single]

theorem should_rate_limit_client_zero (BS TR MC : Nat) {K : Type} [DecidableEq K]
    (k : K) (t : ℚ) :
    should_rate_limit_client BS TR MC [(k, ⟨0, t⟩)] k t = (true, [(k, ⟨0, t⟩)]) := by
  simp only [should_rate_limit_client, findBucket_single, bucket_query_empty_same_time,
    setBucket_single]

theorem should_rate_limit_refill (BS TR : Nat) {K : Type} [DecidableEq K] (k : K) (t : ℚ)
    (hBS : 1 ≤ BS) (hTR : 0 < TR) :
    should_rate_limit BS TR [(k, ⟨0, t⟩)] k (t + 1 / (TR : ℚ)) =
      (false, [(k, ⟨0, t + 1 / (TR : ℚ)⟩)]) := by
  simp only [should_rate_limit, findBucket_single, bucket_query_refill_one BS TR t hBS hTR,
    setBucket_single]

theorem should_rate_limit_client_refill (BS TR MC : Nat) {K : Type} [DecidableEq K]
    (k : K) (t : ℚ) (hBS : 1 ≤ BS) (hTR : 0 < TR) :
    should_rate_limit_client BS TR MC [(k, ⟨0, t⟩)] k (t + 1 / (TR : ℚ)) =
      (false, [(k, ⟨0, t + 1 / (TR : ℚ)⟩)]) := by
  simp only [should_rate_limit_client, findBucket_single,
    bucket_query_refill_one BS TR t hBS hTR, setBucket_single]

theorem run_exhaustion {K : Type} [DecidableEq K]
    (q : RLTable K → K → ℚ → Bool × RLTable K) (k : K) (t0 t1 : ℚ) (m : Nat)
    (hfresh : q [] k t0 = (false, [(k, ⟨(m : ℚ), t0⟩)]))
    (hone : ∀ c : ℚ, 1 ≤ c → c ≤ (m : ℚ) →
      q [(k, ⟨c, t0⟩)] k t0 = (false, [(k, ⟨c - 1, t0⟩)]))
    (hthr : q [(k, ⟨0, t0⟩)] k t0 = (true, [(k, ⟨0, t0⟩)]))
    (href : (q [(k, ⟨0, t0⟩)] k t1).1 = false) :
    (runQueries q [] k (List.replicate (m + 2) t0 ++ [t1])).1 =
      List.replicate (m + 1) false ++ [true, false] := by
  have hmm : (m : ℚ) - (m : ℚ) = 0 := sub_self _
  have hdrain := runQueries_drain m q k t0 hone m (m : ℚ) le_rfl le_rfl
  rw [hmm] at hdrain
  have hsplit : List.replicate (m + 2) t0 ++ [t1] =
      t0 :: (List.replicate m t0 ++ [t0, t1]) := by
    rw [List.replicate_succ, List.replicate_succ']
    simp
  have e3 : (runQueries q [(k, ⟨0, t0⟩)] k [t0, t1]).1 = [true, false] := by
    rw [show ([t0, t1] : List ℚ) = t0 :: [t1] from rfl, runQueries, hthr]
    dsimp only
    rw [runQueries]
    dsimp only
    rw [href, runQueries]
  have e2 := runQueries_append q k (List.replicate m t0) [t0, t1] [(k, ⟨(m : ℚ), t0⟩)]
  rw [hdrain] at e2
  dsimp only at e2
  rw [hsplit, runQueries, hfresh]
  dsimp only
  rw [e2, e3, List.replicate_succ]
  simp

/-- Claim C7: starting from a fresh bucket, `BUCKET_SIZE` admission queries at
one instant all return allow (`false`), the next query at the same instant
returns throttle (`true`), and one further query `1/TOKEN_RATE` seconds later
returns allow again; this holds for the peer table (`should_rate_limit`) and
the client table (`should_rate_limit_client`) alike. -/
theorem rate_limiter_bucket_exhaustion {K1 K2 : Type} [DecidableEq K1] [DecidableEq K2]
    (BS TR MC : Nat) (hBS : 1 ≤ BS) (hTR : 0 < TR) (hMC : 1 ≤ MC)
    (pk : K1) (ip : K2) (t0 : ℚ) :
    (runQueries (should_rate_limit BS TR) [] pk
        (List.replicate (BS + 1) t0 ++ [t0 + 1 / (TR : ℚ)])).1 =
      List.replicate BS false ++ [true, false] ∧
    (runQueries (should_rate_limit_client BS TR MC) [] ip
        (List.replicate (BS + 1) t0 ++ [t0 + 1 / (TR : ℚ)])).1 =
      List.replicate BS false ++ [true, false] := by
  obtain ⟨m, rfl⟩ : ∃ m, BS = m + 1 := ⟨BS - 1, by omega⟩
  have hmle : ((m : ℚ)) ≤ ((m + 1 : Nat) : ℚ) := by push_cast; linarith
  have hcast : ((m + 1 : Nat) : ℚ) - 1 = (m : ℚ) := by push_cast; ring
  constructor
  · have hfresh := should_rate_limit_fresh (m + 1) TR pk t0 hBS
    rw [hcast] at hfresh
    exact run_exhaustion (should_rate_limit (m + 1) TR) pk t0 (t0 + 1 / (TR : ℚ)) m hfresh
      (fun c h1 h2 => should_rate_limit_one (m + 1) TR pk c t0 h1 (le_trans h2 hmle))
      (should_rate_limit_zero (m + 1) TR pk t0)
      (by rw [should_rate_limit_refill (m + 1) TR pk t0 hBS hTR])
  · have hfresh := should_rate_limit_client_fresh (m + 1) TR MC ip t0 hBS hMC
    rw [hcast] at hfresh
    exact run_exhaustion (should_rate_limit_client (m + 1) TR MC) ip t0 (t0 + 1 / (TR : ℚ)) m
      hfresh
      (fun c h1 h2 => should_rate_limit_client_one (m + 1) TR MC ip c t0 h1 (le_trans h2 hmle))
      (should_rate_limit_client_zero (m + 1) TR MC ip t0)
      (by rw [should_rate_limit_client_refill (m + 1) TR MC ip t0 hBS hTR])

/-- Witness for C7 with `BUCKET_SIZE = 10`, `TOKEN_RATE = 25`,
`MAX_CLIENTS = 100`. -/
theorem rate_limiter_bucket_exhaustion_witness :
    (runQueries (should_rate_limit 10 25) [] (0 : Nat)
        (List.replicate 11 (0 : ℚ) ++ [0 + 1 / ((25 : Nat) : ℚ)])).1 =
      List.replicate 10 false ++ [true, false] ∧
    (runQueries (should_rate_limit_client 10 25 100) [] (0 : Nat)
        (List.replicate 11 (0 : ℚ) ++ [0 + 1 / ((25 : Nat) : ℚ)])).1 =
      List.replicate 10 false ++ [true, false] :=
  rate_limiter_bucket_exhaustion 10 25 100 (by omega) (by omega) (by omega) 0 0 0

/-- Counterexample to claim C6 as stated: with `BUCKET_SIZE = 10`,
`TOKEN_RATE = 25`, `MAX_CLIENTS = 2`, the table below is exactly the state
after two distinct client IPs are first observed at time 0; a query for the
fresh identifier 3 at the same instant is throttled (`true`), not admitted,
because no existing bucket has refilled — there is no last-update LRU
eviction. -/
theorem client_first_query_throttled_cex :
    (should_rate_limit_client 10 25 2
        [(2, ⟨9, 0⟩), (1, ⟨9, 0⟩)] (3 : Nat) 0).1 = true := by
  have hfree : findBucket [((2 : Nat), (⟨9, 0⟩ : TokenBucket)), (1, ⟨9, 0⟩)] 3 = none := by
    simp [findBucket]
  have hclean : clean_buckets 10 25 [((2 : Nat), (⟨9, 0⟩ : TokenBucket)), (1, ⟨9, 0⟩)] 0 =
      [(2, ⟨9, 0⟩), (1, ⟨9, 0⟩)] := by
    unfold clean_buckets fill_bucket
    norm_num
  simp only [should_rate_limit_client, hfree, hclean]
  norm_num

/-- Claim C6 (amended): when the client table is full and a query arrives for
a not-yet-present identifier, the buckets that have refilled to capacity are
purged, and the query is admitted exactly when that purge frees a slot; there
is no eviction by oldest last-update time, and a fresh identifier at a full
table of busy buckets is throttled. -/
theorem client_full_table_purge (BS TR MC : Nat) {K : Type} [DecidableEq K]
    (tbl : RLTable K) (k : K) (now : ℚ) (hBS : 1 ≤ BS)
    (hfree : findBucket tbl k = none) (hfull : MC ≤ tbl.length) :
    (should_rate_limit_client BS TR MC tbl k now).1 = true ↔
      MC ≤ (clean_buckets BS TR tbl now).length := by
  have h1 : (1 : ℚ) ≤ (BS : ℚ) := by exact_mod_cast hBS
  simp only [should_rate_limit_client, hfree, if_pos hfull]
  by_cases h : MC ≤ (clean_buckets BS TR tbl now).length
  · simp [h]
  · simp [h, bucket_query_same_time BS TR (BS : ℚ) now h1 le_rfl]

/-- Witness for the amended C6: a full one-slot table whose single bucket is
busy throttles the fresh identifier. -/
theorem client_full_table_purge_witness :
    1 ≤ 10 ∧ findBucket [((1 : Nat), (⟨9, 0⟩ : TokenBucket))] 2 = none ∧
      1 ≤ ([((1 : Nat), (⟨9, 0⟩ : TokenBucket))] : RLTable Nat).length ∧
      ((should_rate_limit_client 10 25 1 [((1 : Nat), ⟨9, 0⟩)] 2 0).1 = true ↔
        1 ≤ (clean_buckets 10 25 [((1 : Nat), ⟨9, 0⟩)] 0).length) :=
  ⟨by omega, by simp [findBucket], by simp,
    client_full_table_purge 10 25 1 [((1 : Nat), ⟨9, 0⟩)] 2 0 (by omega)
      (by simp [findBucket]) (by simp)⟩

/-!
## Claim about the onion construction
-/

theorem onion_wrap_spec (E : EncryptType → Bytes → Bytes → Bytes) (ephs : Nat → Bytes)
    (et : Nat → EncryptType) (payload control : Bytes) :
    ∀ (ds : List Relay) (prev : Relay) (tail : List Relay),
      onion_wrap E ephs et (onionBlobSpec E ephs et payload control (prev :: tail))
          ((prev :: tail).length - 1) prev ds =
        (onionBlobSpec E ephs et payload control (ds.reverse ++ prev :: tail),
          (ds.reverse ++ prev :: tail).length - 1) := by
  intro ds
  induction ds with
  | nil =>
    intro prev tail
    rw [onion_wrap]
    simp
  | cons r ds' ih =>
    intro prev tail
    rw [onion_wrap]
    have h1 : (prev :: tail).length - 1 + 1 = (r :: prev :: tail).length - 1 := by simp
    have hblob :
        E (et ((prev :: tail).length - 1 + 1))
          (encode_size (onionBlobSpec E ephs et payload control (prev :: tail)).length ++
            onionBlobSpec E ephs et payload control (prev :: tail) ++
            routing_dump (to_hex prev.ed) (to_hex (ephs ((prev :: tail).length - 1)))
              (to_string (et ((prev :: tail).length - 1)))) r.x =
        onionBlobSpec E ephs et payload control (r :: prev :: tail) := by
      rw [onionBlobSpec]
    rw [hblob, h1, ih r (prev :: tail)]
    simp

/-- Claim C1: the onion built by `onion_request` has exactly the layered shape
of the spec — the innermost plaintext `size(|P|) || P || C` is encrypted to
the last relay under the first fresh ephemeral keypair; each outer layer
encrypts `size || inner_blob || routing`, where the routing JSON names the
next relay's Ed25519 key as `destination` and the inner layer's ephemeral key
and algorithm; the wire payload is `size(|blob_0|) || blob_0` followed by the
entry object with the outermost ephemeral key and algorithm; and every size
prefix is the 4-byte little-endian encoding of the 32-bit length. -/
theorem onion_request_layers (E : EncryptType → Bytes → Bytes → Bytes)
    (ephs : Nat → Bytes) (et : Nat → EncryptType) (payload control : Bytes)
    (keys : List Relay) (hk : keys ≠ []) :
    onion_request E ephs et payload control keys =
      onionWireSpec E ephs et payload control keys ∧
    (∀ s : Nat, (encode_size s).length = 4 ∧ leVal (encode_size s) = s % 2 ^ 32) := by
  constructor
  · rcases hrev : keys.reverse with _ | ⟨last, up⟩
    · exact absurd (List.reverse_eq_nil_iff.mp hrev) hk
    · have hkeys : up.reverse ++ [last] = keys := by
        have h := congrArg List.reverse hrev
        rw [List.reverse_reverse] at h
        rw [h]
        simp
      rw [onion_request, hrev, onion_request_rev]
      have h0 : E (et 0) (encode_size payload.length ++ payload ++ control) last.x =
          onionBlobSpec E ephs et payload control [last] := rfl
      have hw := onion_wrap_spec E ephs et payload control up last []
      rw [hkeys] at hw
      norm_num at hw
      rw [h0, hw]
      rfl
  · intro s
    constructor
    · rfl
    · simp only [encode_size, leVal]
      omega

/-- Witness for C1 on a concrete two-relay path with a stub cipher. -/
theorem onion_request_layers_witness :
    ([Relay.mk [1] [2], Relay.mk [3] [4]] : List Relay) ≠ [] ∧
      (onion_request (fun _ p k => p ++ k) (fun j => [j]) (fun _ => EncryptType.xchacha20)
          [9] [8] [Relay.mk [1] [2], Relay.mk [3] [4]] =
        onionWireSpec (fun _ p k => p ++ k) (fun j => [j]) (fun _ => EncryptType.xchacha20)
          [9] [8] [Relay.mk [1] [2], Relay.mk [3] [4]] ∧
      (∀ s : Nat, (encode_size s).length = 4 ∧ leVal (encode_size s) = s % 2 ^ 32)) :=
  ⟨by decide,
    onion_request_layers (fun _ p k => p ++ k) (fun j => [j]) (fun _ => EncryptType.xchacha20)
      [9] [8] [Relay.mk [1] [2], Relay.mk [3] [4]] (by decide)⟩

/-!
## Claims about startup and shutdown
-/

/-- Claim C9: if the configured ip is `127.0.0.1`, `main` never retrieves the
node keys and never opens the HTTPS port, and on the normal path (no
help/version exit, usable data directory, valid log level) it logs a critical
error and exits with `EXIT_FAILURE`. -/
theorem loopback_rejected (o : Options) (e : MainEnv) (hip : o.ip = "127.0.0.1") :
    (MainAction.retrieveKeys ∉ (main_run o e).1 ∧
      MainAction.openHttpsPort ∉ (main_run o e).1) ∧
    (o.print_help = false → o.print_version = false →
      ¬(o.data_dir = "" ∧ ¬e.home_dir_found = true) → e.log_level_valid = true →
      (main_run o e).2 = EXIT_FAILURE ∧
        MainAction.logCriticalLocalhost ∈ (main_run o e).1) := by
  unfold main_run
  split_ifs <;> simp_all [EXIT_FAILURE, EXIT_SUCCESS]

/-- Witness for C9 at a concrete configuration. -/
theorem loopback_rejected_witness :
    (Options.mk false false "d" false "info" "127.0.0.1").ip = "127.0.0.1" ∧
      ((MainAction.retrieveKeys ∉
          (main_run (Options.mk false false "d" false "info" "127.0.0.1")
            (MainEnv.mk true true true false)).1 ∧
        MainAction.openHttpsPort ∉
          (main_run (Options.mk false false "d" false "info" "127.0.0.1")
            (MainEnv.mk true true true false)).1) ∧
      ((Options.mk false false "d" false "info" "127.0.0.1").print_help = false →
        (Options.mk false false "d" false "info" "127.0.0.1").print_version = false →
        ¬((Options.mk false false "d" false "info" "127.0.0.1").data_dir = "" ∧
          ¬(MainEnv.mk true true true false).home_dir_found = true) →
        (MainEnv.mk true true true false).log_level_valid = true →
        (main_run (Options.mk false false "d" false "info" "127.0.0.1")
            (MainEnv.mk true true true false)).2 = EXIT_FAILURE ∧
          MainAction.logCriticalLocalhost ∈
            (main_run (Options.mk false false "d" false "info" "127.0.0.1")
              (MainEnv.mk true true true false)).1)) :=
  ⟨rfl, loopback_rejected (Options.mk false false "d" false "info" "127.0.0.1")
    (MainEnv.mk true true true false) rfl⟩

/-- Counterexample to claim C8 as stated: on a concrete normal-path run the
drain sequence recorded at the end of `main` is master-node shutdown first,
then the HTTPS listener, then the message-bus transport — not HTTPS first as
the claim asserts. -/
theorem shutdown_drain_order_cex :
    (main_run (Options.mk false false "d" false "info" "1.2.3.4")
        (MainEnv.mk true true true false)).1.filter isDrainAction ≠
      [MainAction.stopHttpsServer, MainAction.shutdownMasterNode,
        MainAction.stopBmqServer] ∧
    (main_run (Options.mk false false "d" false "info" "1.2.3.4")
        (MainEnv.mk true true true false)).1.filter isDrainAction =
      [MainAction.shutdownMasterNode, MainAction.stopHttpsServer,
        MainAction.stopBmqServer] := by
  constructor
  · decide
  · decide

/-- Claim C8 (amended): on every normal-path run, the drain order on receipt
of a termination signal is: master-node subsystem first, then the HTTPS
listener, and last the message-bus transport. -/
theorem shutdown_drain_order (o : Options) (e : MainEnv)
    (h1 : o.print_help = false) (h2 : o.print_version = false)
    (h3 : ¬(o.data_dir = "" ∧ ¬e.home_dir_found = true)) (h4 : e.log_level_valid = true)
    (h5 : o.ip ≠ "127.0.0.1") (h6 : e.sodium_ok = true)
    (h7 : e.signalled_during_startup = false) :
    (main_run o e).1.filter isDrainAction =
      [MainAction.shutdownMasterNode, MainAction.stopHttpsServer,
        MainAction.stopBmqServer] := by
  unfold main_run
  split_ifs <;> simp_all <;> decide

/-- Witness for the amended C8. -/
theorem shutdown_drain_order_witness :
    (Options.mk false false "d" false "info" "1.2.3.4").print_help = false ∧
      (main_run (Options.mk false false "d" false "info" "1.2.3.4")
          (MainEnv.mk true true true false)).1.filter isDrainAction =
        [MainAction.shutdownMasterNode, MainAction.stopHttpsServer,
          MainAction.stopBmqServer] :=
  ⟨rfl, shutdown_drain_order (Options.mk false false "d" false "info" "1.2.3.4")
    (MainEnv.mk true true true false) rfl rfl (by simp) rfl (by decide) rfl rfl⟩
